import Mathlib

/-!
# audiocat: the capture / drain pipeline of `audiocat.c`

A shallow embedding of the parts of `audiocat.c` that touch the shared job
queue and its two byte counters, the status line arithmetic and the option
loop of `main`, followed by the properties proved about them.

Conventions of the embedding

* a C `int` is an `Int` kept in `[-2^31, 2^31)` by `wrapInt32`; signed
  overflow is modelled as two's-complement wrap-around;
* a `uint64_t` / `size_t` is an `Int` kept in `[0, 2^64)` by `wrapUInt64`;
* a byte buffer is a `List Nat`, a C string a `List Char` (one `Char` per C `char`);
* results of system calls (`read`, `write`, `malloc`) are inputs of the
  function that issues the call;
* a fatal `err`/`errx` exit is a returned exit status.
-/

set_option linter.dupNamespace false

namespace Audiocat

/-! ## Machine integers and constants -/

/-- Exit status `EX_SOFTWARE` of `sysexits.h`. -/
def EX_SOFTWARE : Nat := 70

/-- Largest C `int`. -/
def INT_MAX : Int := 2147483647

/-- Smallest C `int`. -/
def INT_MIN : Int := -2147483648

/-- The C `int` that results from storing the integer `x` in 32 bits. -/
def wrapInt32 (x : Int) : Int := (x + 2147483648) % 4294967296 - 2147483648

/-- The `long long` that results from storing the integer `x` in 64 bits. -/
def wrapInt64 (x : Int) : Int :=
  (x + 9223372036854775808) % 18446744073709551616 - 9223372036854775808

/-- The `uint64_t` (or `size_t`) that results from converting the integer `x`. -/
def wrapUInt64 (x : Int) : Int := x % 18446744073709551616

/-! ## Data model (lines 41-69) -/

/-- The `struct data` of line 43: one queued write job. The flexible array
member `data[0]` is the list of payload bytes stored behind the header. -/
structure data where
  fd : Int
  bytes : Int
  data : List Nat
deriving DecidableEq

/-- The `struct devinfo` of line 54. -/
structure devinfo where
  inputfn : List Char
  outputfn : List Char
  input_fd : Int
  output_fd : Int
deriving DecidableEq

/-- The shared variables guarded by `atomic_mtx`: the queue `data_head`
(line 50, head first), `pending` (line 68, a C `int`) and `total`
(line 69, a `uint64_t`). -/
structure Globals where
  data_head : List data
  pending : Int
  total : Int
deriving DecidableEq

/-- Sum of the `bytes` fields of a list of jobs (an unbounded integer). -/
def queueBytes (q : List data) : Int := (q.map (fun j => j.bytes)).sum

/-! ## `write_async` (lines 95-114) -/

/-- Lines 100-105: the job built by `write_async` before it takes the lock.
`memcpy(ptr + 1, data, bytes)` copies the first `bytes` bytes of the source
buffer `src`. A negative `bytes` has no defined meaning in C; the model then
copies nothing. -/
def write_async_ptr (fd : Int) (src : List Nat) (bytes : Int) : data :=
  { fd := fd, bytes := bytes, data := src.take bytes.toNat }

/-- Lines 95-114. `mem` tells whether `malloc` returned a block. The result
is the return value (or the exit status of `errx`) and the shared state
after the call. -/
def write_async (fd : Int) (src : List Nat) (bytes : Int) (mem : Bool)
    (g : Globals) : Except Nat Int × Globals :=
  if mem = false then
    (Except.error EX_SOFTWARE, g)
  else
    let ptr := write_async_ptr fd src bytes
    -- atomic_lock()
    let g1 : Globals := { g with pending := wrapInt32 (g.pending + bytes) }
    let g2 : Globals := { g1 with data_head := g1.data_head ++ [ptr] }
    -- atomic_signal(); atomic_unlock()
    (Except.ok bytes, g2)

/-! ## `audio_thread` (lines 116-134) -/

/-- One iteration of the `while (1)` loop of `audio_thread`. `buffer` is the
content of the variable-length array after the `read`, `n` the value
returned by `read`, `mem` the fate of the `malloc` inside `write_async`.
`sizeof(buffer)` is a `size_t`; `error` is an `int` and is converted to
`size_t` by both comparisons. The result is `none` when the loop goes on,
or the exit status, together with the shared state. -/
def audio_thread_iter (default_blocksize : Int) (di : devinfo)
    (buffer : List Nat) (n : Int) (mem : Bool) (g : Globals) :
    Option Nat × Globals :=
  let sizeof_buffer := wrapUInt64 default_blocksize
  let error := wrapInt32 n
  if wrapUInt64 error ≠ sizeof_buffer then
    (some EX_SOFTWARE, g)
  else
    match write_async di.output_fd buffer (wrapInt32 sizeof_buffer) mem g with
    | (Except.error code, g1) => (some code, g1)
    | (Except.ok r, g1) =>
      if wrapUInt64 (wrapInt32 r) ≠ sizeof_buffer then
        (some EX_SOFTWARE, g1)
      else
        (none, g1)

/-! ## The drain loop of `main` (lines 231-252) -/

/-- What one iteration of the drain loop did: the shared state it left, the
job whose `write(ptr->fd, ptr->data, ptr->bytes)` it issued (`none` when the
queue was empty and it went to `atomic_wait`), and the exit status when the
iteration ended in `err`. -/
structure DrainOut where
  g : Globals
  write : Option data
  exit : Option Nat
deriving DecidableEq

/-- One iteration of the `while (1)` loop of lines 232-251, entered with the
lock held. `w` is the value returned by `write` when a job is dequeued. The
comparison of line 245 is between an `ssize_t` and an `int`, so it is exact. -/
def drain_iter (w : Int) (g : Globals) : DrainOut :=
  match g.data_head with
  | [] =>
    -- atomic_wait(); continue
    { g := g, write := none, exit := none }
  | ptr :: rest =>
    let g1 : Globals := { g with data_head := rest }
    let g2 : Globals := { g1 with total := wrapUInt64 (g1.total + wrapUInt64 ptr.bytes) }
    let g3 : Globals := { g2 with pending := wrapInt32 (g2.pending - ptr.bytes) }
    -- atomic_unlock()
    if w ≠ ptr.bytes then
      { g := g3, write := some ptr, exit := some EX_SOFTWARE }
    else
      -- free(ptr); atomic_lock()
      { g := g3, write := some ptr, exit := none }

/-! ## The process: interleavings of producers and the drain loop -/

/-- The process as seen through the lock: the shared variables, the jobs in
the order their insertion completed, the jobs handed to `write` in the order
they were dequeued, and the exit status once a fatal exit was taken. -/
structure Proc where
  g : Globals
  enqueued : List data
  written : List data
  exit : Option Nat
deriving DecidableEq

/-- The steps that touch the shared state: a call of `write_async` by some
capture thread, or one iteration of the drain loop. -/
inductive Event where
  | write_async (fd : Int) (src : List Nat) (bytes : Int) (mem : Bool)
  | drain (w : Int)
deriving DecidableEq

/-- State at program start: empty queue, `pending = 0`, `total = 0`. -/
def Proc.init : Proc :=
  { g := { data_head := [], pending := 0, total := 0 },
    enqueued := [], written := [], exit := none }

/-- One step of the process. Nothing happens after a fatal exit. -/
def Proc.step (p : Proc) (e : Event) : Proc :=
  match p.exit with
  | some _ => p
  | none =>
    match e with
    | Event.write_async fd src bytes mem =>
      match write_async fd src bytes mem p.g with
      | (Except.ok _, g1) =>
        { p with g := g1, enqueued := p.enqueued ++ [write_async_ptr fd src bytes] }
      | (Except.error code, g1) => { p with g := g1, exit := some code }
    | Event.drain w =>
      let r := drain_iter w p.g
      { p with g := r.g, written := p.written ++ r.write.toList, exit := r.exit }

/-- The state reached from `p` by a finite interleaving `tr`. -/
def Proc.run (tr : List Event) (p : Proc) : Proc := tr.foldl Proc.step p

/-- The three facts that every step preserves: `pending` is the 32-bit image
of the bytes in the queue, `total` the 64-bit image of the bytes dequeued,
and the enqueue history is the dequeue history followed by the queue. -/
def Proc.Inv (p : Proc) : Prop :=
  p.g.pending = wrapInt32 (queueBytes p.g.data_head) ∧
  p.g.total = wrapUInt64 (queueBytes p.written) ∧
  p.enqueued = p.written ++ p.g.data_head

/-- The job a step of the interleaving hands to the queue: a `write_async`
call whose `malloc` succeeded submits the descriptor, the length and the
first `bytes` bytes of the block it was given; other steps submit nothing. -/
def Event.job : Event → Option data
  | Event.write_async fd src bytes true =>
    some { fd := fd, bytes := bytes, data := src.take bytes.toNat }
  | _ => none

/-- The jobs submitted by the steps of an interleaving, in order. -/
def submitted (tr : List Event) : List data := tr.filterMap Event.job

/-- The interleaving that repeats the block of steps `tr` `n` times. -/
def rounds : Nat → List Event → List Event
  | 0, _ => []
  | n + 1, tr => tr ++ rounds n tr

/-- A 4-byte job for descriptor 3, used in examples. -/
def sampleJob : data := { fd := 3, bytes := 4, data := [1, 2, 3, 4] }

/-- A shared state whose queue holds `sampleJob` only, used in examples. -/
def sampleGlobals : Globals := { data_head := [sampleJob], pending := 4, total := 0 }

/-! ## `status_thread` (lines 136-164) -/

/-- Lines 152-153: the elapsed time used as divisor; `elapsed` is the
`uint64_t` assigned to `runtime` at line 151. -/
def status_runtime (elapsed : Int) : Int := if elapsed = 0 then 1 else elapsed

/-- The six arguments of the `printf` of lines 155-159, after their casts. -/
structure StatusArgs where
  pnd : Int
  avg : Int
  tot : Int
  hours : Int
  minutes : Int
  seconds : Int
deriving DecidableEq

/-- Lines 155-159: the arguments computed from the sampled counters and the
floored `runtime`. `tot` and `runtime` are `uint64_t`, so the divisions are
unsigned; every argument but the third is cast to `int`. -/
def status_printf_args (tot pnd runtime : Int) : StatusArgs :=
  { pnd := wrapInt32 pnd,
    avg := wrapInt32 (tot / runtime),
    tot := wrapInt64 tot,
    hours := wrapInt32 (runtime / (60 * 60)),
    minutes := wrapInt32 ((runtime / 60) % 60),
    seconds := wrapInt32 (runtime % 60) }

/-- One iteration of the loop of `status_thread`: sample the counters under
the lock, floor the elapsed time, compute the arguments. -/
def status_thread_iter (g : Globals) (elapsed : Int) : StatusArgs :=
  let tot := g.total
  let pnd := g.pending
  -- atomic_unlock()
  status_printf_args tot pnd (status_runtime elapsed)

/-- The conversion `%d` of `printf`. -/
def printf_d (x : Int) : List Char :=
  if x < 0 then '-' :: Nat.toDigits 10 x.natAbs else Nat.toDigits 10 x.toNat

/-- The text stored by `snprintf(dst, size, ...)` when the formatted text is
`s`: at most `size - 1` characters, followed by the terminating zero. -/
def snprintf (size : Nat) (s : List Char) : List Char := s.take (size - 1)

/-- What `getopt(argc, argv, "hb:i:o:")` returns for one option: `b`, `o` or
`i` with its `optarg`, or a character of the `default` branch (`h` or `?`).
For `i`, `mem` tells whether the `malloc` of line 194 returned a block. -/
inductive Opt where
  | b (optarg : List Char)
  | o (optarg : List Char)
  | i (optarg : List Char) (mem : Bool)
  | other
deriving DecidableEq

/-- The variables written by the option loop. -/
structure MainState where
  default_blocksize : Int
  default_prefix : List Char
  devinfo_head : List devinfo
  n : Int
deriving DecidableEq

/-- The initial values of lines 62, 66, 67 and 180. -/
def MainState.init : MainState :=
  { default_blocksize := 4096, default_prefix := "recording".toList,
    devinfo_head := [], n := 0 }

/-- The body of the `switch` of lines 186-206 for one option. `MAXPATHLEN`
is the constant of `sys/param.h` and `atoi` the library function; an
`Except.error` is the exit status of `usage` or `errx`. -/
def main_option (MAXPATHLEN : Nat) (atoi : List Char → Int) (st : MainState) :
    Opt → Except Nat MainState
  | Opt.b optarg => Except.ok { st with default_blocksize := atoi optarg }
  | Opt.o optarg => Except.ok { st with default_prefix := optarg }
  | Opt.i optarg mem =>
    if mem = false then
      Except.error EX_SOFTWARE
    else
      let di : devinfo :=
        { inputfn := snprintf MAXPATHLEN optarg,
          outputfn := snprintf MAXPATHLEN
            ( st.default_prefix ++ "-".toList ++ printf_d st.n ++ ".wav".toList),
          input_fd := 0,
          output_fd := 0 }
      Except.ok { st with devinfo_head := st.devinfo_head ++ [di], n := wrapInt32 (st.n + 1) }
  | Opt.other => Except.error 0

/-- The `while` loop of lines 185-207 over the options found by `getopt`. -/
def main_getopt_loop (MAXPATHLEN : Nat) (atoi : List Char → Int) :
    List Opt → MainState → Except Nat MainState
  | [], st => Except.ok st
  | c :: cs, st =>
    match main_option MAXPATHLEN atoi st c with
    | Except.error code => Except.error code
    | Except.ok st1 => main_getopt_loop MAXPATHLEN atoi cs st1

/-- Lines 185-210: the option loop followed by the test `n == 0`. -/
def main_options (MAXPATHLEN : Nat) (atoi : List Char → Int) (opts : List Opt) :
    Except Nat MainState :=
  match main_getopt_loop MAXPATHLEN atoi opts MainState.init with
  | Except.error code => Except.error code
  | Except.ok st => if st.n = 0 then Except.error 0 else Except.ok st

/-- Number of `-i` options in a list of options. -/
def registered : List Opt → Nat
  | [] => 0
  | Opt.i _ _ :: cs => registered cs + 1
  | _ :: cs => registered cs

/-- The argument of the last `-o` in a list of options, or `dflt` when the
list has none. -/
def lastO (dflt : List Char) : List Opt → List Char
  | [] => dflt
  | Opt.o optarg :: cs => lastO optarg cs
  | _ :: cs => lastO dflt cs

/-- The output file names of the registered devices, in registration order,
or `none` when the command line is not accepted. -/
def outputNames (MAXPATHLEN : Nat) (atoi : List Char → Int) (opts : List Opt) :
    Option (List (List Char)) :=
  match main_options MAXPATHLEN atoi opts with
  | Except.error _ => none
  | Except.ok st => some (st.devinfo_head.map (fun di => di.outputfn))

/-! ## The actions of each thread, in program order -/

/-- The shared variables guarded by `atomic_mtx`. -/
inductive SharedVar where
  | data_head
  | pending
  | total
deriving DecidableEq

/-- The blocking calls named by the lock discipline. -/
inductive Blocking where
  | read
  | write
  | printf
  | fflush
  | usleep
deriving DecidableEq

/-- One action of a thread: the four `atomic_*` functions of lines 71-93, a
read or write of a shared variable, a blocking call, a purely local action
(`malloc`, `memcpy`, `free`, `time`, `difftime`), or the exit through `err`
or `errx`. -/
inductive Act where
  | atomic_lock
  | atomic_unlock
  | atomic_wait
  | atomic_signal
  | access (v : SharedVar)
  | blocking (c : Blocking)
  | localOnly
  | exit
deriving DecidableEq

/-- The actions of one call of `write_async`, lines 100-111: `malloc`, the
exit when it failed, else the filling of the job, the lock, `pending +=`,
`TAILQ_INSERT_TAIL`, the signal and the unlock. -/
def write_async_acts (mem : Bool) : List Act :=
  if mem = false then
    [Act.localOnly, Act.exit]
  else
    [Act.localOnly, Act.localOnly, Act.atomic_lock, Act.access SharedVar.pending,
      Act.access SharedVar.data_head, Act.atomic_signal, Act.atomic_unlock]

/-- The actions of `audio_thread`, lines 124-132, for a list of iterations,
each given by whether the `read` was complete and whether the `malloc` of
`write_async` succeeded. The thread ends with its first exit. -/
def audio_thread_acts : List (Bool × Bool) → List Act
  | [] => []
  | (full, mem) :: rest =>
    Act.blocking Blocking.read ::
      (if full = false then [Act.exit]
       else write_async_acts mem ++ (if mem = false then [] else audio_thread_acts rest))

/-- The actions of `n` iterations of the loop of `status_thread`, lines
146-162: lock, read `total`, read `pending`, unlock, `time` and `difftime`,
`printf`, `fflush`, `usleep`. -/
def status_loop_acts : Nat → List Act
  | 0 => []
  | n + 1 =>
    [Act.atomic_lock, Act.access SharedVar.total, Act.access SharedVar.pending,
      Act.atomic_unlock, Act.localOnly, Act.blocking Blocking.printf,
      Act.blocking Blocking.fflush, Act.blocking Blocking.usleep] ++ status_loop_acts n

/-- The actions of `status_thread`: `time` at line 139, then the loop. -/
def status_thread_acts (n : Nat) : List Act := Act.localOnly :: status_loop_acts n

/-- The actions of the drain loop, lines 232-251, for a list of iterations:
`none` when `TAILQ_FIRST` found the queue empty (then `atomic_wait`),
`some ok` when a job was dequeued, `ok` telling whether its `write` was
complete. The loop ends with its first exit. -/
def drain_loop_acts : List (Option Bool) → List Act
  | [] => []
  | none :: rest =>
    Act.access SharedVar.data_head :: Act.atomic_wait :: drain_loop_acts rest
  | some ok :: rest =>
    [Act.access SharedVar.data_head, Act.access SharedVar.data_head,
      Act.access SharedVar.total, Act.access SharedVar.pending, Act.atomic_unlock,
      Act.blocking Blocking.write] ++
      (if ok = false then [Act.exit]
       else Act.localOnly :: Act.atomic_lock :: drain_loop_acts rest)

/-- The actions of `main` from line 226 on: `printf`, then `atomic_lock` at
line 231 and the drain loop. -/
def main_acts (its : List (Option Bool)) : List Act :=
  Act.blocking Blocking.printf :: Act.atomic_lock :: drain_loop_acts its

/-- Run the lock discipline over a sequence of actions of one thread.
`held` tells whether the thread holds `atomic_mtx`. The result is the final
value of `held`, or `none` when an action broke the discipline: a lock taken
while held, an unlock or wait without the lock, a shared variable touched
without the lock, or a blocking call made with the lock. `atomic_wait`
returns with the lock held. -/
def lockCheck : Bool → List Act → Option Bool
  | held, [] => some held
  | held, Act.atomic_lock :: rest => if held then none else lockCheck true rest
  | held, Act.atomic_unlock :: rest => if held then lockCheck false rest else none
  | held, Act.atomic_wait :: rest => if held then lockCheck true rest else none
  | held, Act.atomic_signal :: rest => lockCheck held rest
  | held, Act.access _ :: rest => if held then lockCheck held rest else none
  | held, Act.blocking _ :: rest => if held then none else lockCheck held rest
  | held, Act.localOnly :: rest => lockCheck held rest
  | held, Act.exit :: rest => lockCheck held rest

/-- A thread that starts without the lock keeps the discipline along `acts`. -/
def disciplined (acts : List Act) : Bool := (lockCheck false acts).isSome

/-! ## Arithmetic of the machine integers -/

theorem wrapInt32_range (x : Int) : INT_MIN ≤ wrapInt32 x ∧ wrapInt32 x ≤ INT_MAX := by
  unfold wrapInt32 INT_MIN INT_MAX
  omega

theorem wrapInt32_eq_self_iff (x : Int) : wrapInt32 x = x ↔ INT_MIN ≤ x ∧ x ≤ INT_MAX := by
  unfold wrapInt32 INT_MIN INT_MAX
  omega

theorem wrapInt32_add_left (a b : Int) : wrapInt32 (wrapInt32 a + b) = wrapInt32 (a + b) := by
  unfold wrapInt32
  omega

theorem wrapInt32_sub_left (a b : Int) : wrapInt32 (wrapInt32 a - b) = wrapInt32 (a - b) := by
  unfold wrapInt32
  omega

theorem wrapUInt64_eq_self_iff (x : Int) :
    wrapUInt64 x = x ↔ 0 ≤ x ∧ x < 18446744073709551616 := by
  unfold wrapUInt64
  omega

theorem wrapUInt64_add (a b : Int) :
    wrapUInt64 (wrapUInt64 a + wrapUInt64 b) = wrapUInt64 (a + b) := by
  unfold wrapUInt64
  omega

theorem queueBytes_nil : queueBytes [] = 0 := rfl

theorem queueBytes_cons (j : data) (q : List data) :
    queueBytes (j :: q) = j.bytes + queueBytes q := by
  simp [queueBytes]

theorem queueBytes_append (q r : List data) :
    queueBytes (q ++ r) = queueBytes q + queueBytes r := by
  simp [queueBytes]

/-! ## The invariant of the process -/

theorem Proc.inv_init : Proc.init.Inv := by
  refine ⟨?_, ?_, ?_⟩ <;> decide

theorem Proc.inv_step (p : Proc) (e : Event) (h : p.Inv) : (p.step e).Inv := by
  obtain ⟨hp, ht, hq⟩ := h
  unfold Proc.step
  cases hx : p.exit with
  | some c => exact ⟨hp, ht, hq⟩
  | none =>
    cases e with
    | write_async fd src bytes mem =>
      cases mem with
      | false => exact ⟨hp, ht, hq⟩
      | true =>
        refine ⟨?_, ht, ?_⟩
        · simp [write_async, write_async_ptr, hp, wrapInt32_add_left, queueBytes_append,
            queueBytes_cons, queueBytes_nil]
        · simp [write_async, hq]
    | drain w =>
      cases hd : p.g.data_head with
      | nil =>
        simp only [drain_iter, hd]
        refine ⟨?_, ?_, ?_⟩
        · simpa [hd] using hp
        · simpa using ht
        · simpa [hd] using hq
      | cons ptr rest =>
        rw [hd] at hp hq
        have hg : (drain_iter w p.g).g =
            { data_head := rest,
              pending := wrapInt32 (p.g.pending - ptr.bytes),
              total := wrapUInt64 (p.g.total + wrapUInt64 ptr.bytes) } := by
          simp only [drain_iter, hd]
          split <;> rfl
        have hw : (drain_iter w p.g).write = some ptr := by
          simp only [drain_iter, hd]
          split <;> rfl
        refine ⟨?_, ?_, ?_⟩
        · simp only [hg, hp, queueBytes_cons, wrapInt32_sub_left]
          congr 1
          ring
        · simp only [hg, hw, ht, Option.toList, queueBytes_append, queueBytes_cons,
            queueBytes_nil, wrapUInt64_add]
          congr 1
          ring
        · simp [hg, hw, hq]

theorem Proc.inv_run (tr : List Event) (p : Proc) (h : p.Inv) : (Proc.run tr p).Inv := by
  induction tr generalizing p with
  | nil => exact h
  | cons e tr ih => exact ih (p.step e) (Proc.inv_step p e h)

/-! ## Histories -/

theorem Proc.step_of_exit (p : Proc) (e : Event) (c : Nat) (h : p.exit = some c) :
    p.step e = p := by
  simp [Proc.step, h]

theorem Proc.run_of_exit (tr : List Event) (p : Proc) (c : Nat) (h : p.exit = some c) :
    Proc.run tr p = p := by
  induction tr with
  | nil => rfl
  | cons e tr ih =>
    show Proc.run tr (p.step e) = p
    rw [Proc.step_of_exit p e c h]
    exact ih

theorem Proc.run_append (a b : List Event) (p : Proc) :
    Proc.run (a ++ b) p = Proc.run b (Proc.run a p) := by
  simp [Proc.run, List.foldl_append]

/-- The enqueue history grows by a prefix of the submitted jobs, and by all
of them when the process is still running. -/
theorem Proc.enqueued_run (tr : List Event) (p : Proc) :
    ∃ l, l <+: submitted tr ∧ (Proc.run tr p).enqueued = p.enqueued ++ l ∧
      ((Proc.run tr p).exit = none → l = submitted tr) := by
  induction tr generalizing p with
  | nil => exact ⟨[], List.prefix_refl _, by simp [Proc.run], fun _ => rfl⟩
  | cons e tr ih =>
    cases hx : p.exit with
    | some c =>
      rw [Proc.run_of_exit _ p c hx]
      exact ⟨[], List.nil_prefix, by simp, fun h => by rw [hx] at h; cases h⟩
    | none =>
      cases e with
      | write_async fd src bytes mem =>
        cases mem with
        | false =>
          have hs : p.step (Event.write_async fd src bytes false) =
              { p with exit := some EX_SOFTWARE } := by
            simp [Proc.step, hx, write_async]
          have hr : Proc.run (Event.write_async fd src bytes false :: tr) p =
              { p with exit := some EX_SOFTWARE } := by
            show Proc.run tr (p.step _) = _
            rw [hs]
            exact Proc.run_of_exit tr _ EX_SOFTWARE rfl
          rw [hr]
          exact ⟨[], List.nil_prefix, by simp, fun h => by cases h⟩
        | true =>
          have hs : (p.step (Event.write_async fd src bytes true)).enqueued =
              p.enqueued ++ [{ fd := fd, bytes := bytes, data := src.take bytes.toNat }] := by
            simp [Proc.step, hx, write_async, write_async_ptr]
          obtain ⟨l, hl, he, hn⟩ := ih (p.step (Event.write_async fd src bytes true))
          refine ⟨{ fd := fd, bytes := bytes, data := src.take bytes.toNat } :: l, ?_, ?_, ?_⟩
          · simpa [submitted, List.filterMap_cons, Event.job] using hl
          · show (Proc.run tr (p.step _)).enqueued = _
            rw [he, hs]
            simp
          · intro h
            have := hn h
            simp [submitted, List.filterMap_cons, Event.job] at this ⊢
            exact this
      | drain w =>
        have hs : (p.step (Event.drain w)).enqueued = p.enqueued := by
          simp [Proc.step, hx]
        obtain ⟨l, hl, he, hn⟩ := ih (p.step (Event.drain w))
        refine ⟨l, ?_, ?_, ?_⟩
        · simpa [submitted, List.filterMap_cons, Event.job] using hl
        · show (Proc.run tr (p.step _)).enqueued = _
          rw [he, hs]
        · intro h
          have := hn h
          simpa [submitted, List.filterMap_cons, Event.job] using this

/-! ## Long runs -/

theorem queueBytes_replicate (n : Nat) (j : data) :
    queueBytes (List.replicate n j) = n * j.bytes := by
  induction n with
  | zero => simp [queueBytes]
  | succ n ih =>
    rw [List.replicate_succ, queueBytes_cons, ih]
    push_cast
    ring

/-- The queue after `n` successful calls of `write_async` with the same block. -/
theorem Proc.run_replicate_write_async (fd : Int) (src : List Nat) (bytes : Int)
    (n : Nat) (p : Proc) (h : p.exit = none) :
    (Proc.run (List.replicate n (Event.write_async fd src bytes true)) p).g.data_head =
      p.g.data_head ++ List.replicate n (write_async_ptr fd src bytes) := by
  induction n generalizing p with
  | zero => simp [Proc.run]
  | succ n ih =>
    have hs : (p.step (Event.write_async fd src bytes true)).exit = none := by
      simp [Proc.step, h, write_async]
    have hq : (p.step (Event.write_async fd src bytes true)).g.data_head =
        p.g.data_head ++ [write_async_ptr fd src bytes] := by
      simp [Proc.step, h, write_async]
    show (Proc.run (List.replicate n _) (p.step _)).g.data_head = _
    rw [ih _ hs, hq, List.replicate_succ]
    simp

/-- The histories after `n` rounds of one successful `write_async` followed
by one drain iteration whose `write` is complete, started on an empty queue. -/
theorem Proc.run_rounds (fd : Int) (src : List Nat) (bytes : Int) (n : Nat) (p : Proc)
    (h : p.exit = none) (hq : p.g.data_head = []) :
    (Proc.run (rounds n [Event.write_async fd src bytes true, Event.drain bytes]) p).written =
      p.written ++ List.replicate n (write_async_ptr fd src bytes) := by
  induction n generalizing p with
  | zero => simp [Proc.run, rounds]
  | succ n ih =>
    have h1 : (Proc.run [Event.write_async fd src bytes true, Event.drain bytes] p).exit
        = none := by
      simp [Proc.run, Proc.step, h, write_async, drain_iter, hq, write_async_ptr]
    have h2 : (Proc.run [Event.write_async fd src bytes true, Event.drain bytes] p).g.data_head
        = [] := by
      simp [Proc.run, Proc.step, h, write_async, drain_iter, hq, write_async_ptr]
    have h3 : (Proc.run [Event.write_async fd src bytes true, Event.drain bytes] p).written
        = p.written ++ [write_async_ptr fd src bytes] := by
      simp [Proc.run, Proc.step, h, write_async, drain_iter, hq, write_async_ptr]
    rw [rounds, Proc.run_append, ih _ h1 h2, h3, List.replicate_succ]
    simp

theorem Proc.pending_after_writes (fd : Int) (src : List Nat) (bytes : Int) (n : Nat) :
    (Proc.run (List.replicate n (Event.write_async fd src bytes true)) Proc.init).g.pending =
      wrapInt32 (n * bytes) ∧
    queueBytes
      (Proc.run (List.replicate n (Event.write_async fd src bytes true)) Proc.init).g.data_head =
      n * bytes := by
  have hq := Proc.run_replicate_write_async fd src bytes n Proc.init rfl
  have hb : queueBytes
      (Proc.run (List.replicate n (Event.write_async fd src bytes true)) Proc.init).g.data_head =
      n * bytes := by
    rw [hq, queueBytes_append, queueBytes_replicate]
    simp [Proc.init, queueBytes, write_async_ptr]
  refine ⟨?_, hb⟩
  rw [(Proc.inv_run _ _ Proc.inv_init).1, hb]

theorem Proc.total_after_rounds (fd : Int) (src : List Nat) (bytes : Int) (n : Nat) :
    (Proc.run (rounds n [Event.write_async fd src bytes true, Event.drain bytes])
      Proc.init).g.total = wrapUInt64 (n * bytes) ∧
    queueBytes (Proc.run (rounds n [Event.write_async fd src bytes true, Event.drain bytes])
      Proc.init).written = n * bytes := by
  have hw := Proc.run_rounds fd src bytes n Proc.init rfl rfl
  have hb : queueBytes (Proc.run (rounds n [Event.write_async fd src bytes true,
      Event.drain bytes]) Proc.init).written = n * bytes := by
    rw [hw, queueBytes_append, queueBytes_replicate]
    simp [Proc.init, queueBytes, write_async_ptr]
  refine ⟨?_, hb⟩
  rw [(Proc.inv_run _ _ Proc.inv_init).2.1, hb]

/-! ## Counter conservation -/

/-- C1, as amended: in every state reached from the initial state by a finite
interleaving of `write_async` calls and drain iterations, `pending` is the
sum of the `bytes` fields of the queued jobs stored in a 32-bit C `int`; it
equals the sum itself exactly when the sum lies in the range of `int`. -/
theorem pending_conservation (tr : List Event) :
    (Proc.run tr Proc.init).g.pending =
      wrapInt32 (queueBytes (Proc.run tr Proc.init).g.data_head) ∧
    ((Proc.run tr Proc.init).g.pending = queueBytes (Proc.run tr Proc.init).g.data_head ↔
      INT_MIN ≤ queueBytes (Proc.run tr Proc.init).g.data_head ∧
        queueBytes (Proc.run tr Proc.init).g.data_head ≤ INT_MAX) := by
  have h := (Proc.inv_run tr Proc.init Proc.inv_init).1
  refine ⟨h, ?_⟩
  rw [h]
  exact wrapInt32_eq_self_iff _

/-- C1, counterexample: 524288 calls of `write_async` with 4096-byte blocks
and no dequeue in between leave 2147483648 bytes in the queue, while
`pending` holds -2147483648. -/
theorem pending_conservation_fails :
    (Proc.run (List.replicate 524288 (Event.write_async 3 (List.replicate 4096 0) 4096 true))
      Proc.init).g.pending = -2147483648 ∧
    queueBytes (Proc.run
      (List.replicate 524288 (Event.write_async 3 (List.replicate 4096 0) 4096 true))
      Proc.init).g.data_head = 2147483648 ∧
    (Proc.run (List.replicate 524288 (Event.write_async 3 (List.replicate 4096 0) 4096 true))
      Proc.init).g.pending ≠
    queueBytes (Proc.run
      (List.replicate 524288 (Event.write_async 3 (List.replicate 4096 0) 4096 true))
      Proc.init).g.data_head := by
  have h := Proc.pending_after_writes 3 (List.replicate 4096 0) 4096 524288
  have h1 := h.1.trans (show wrapInt32 ((524288 : Nat) * 4096) = -2147483648 by
    norm_num [wrapInt32])
  have h2 := h.2.trans (show (((524288 : Nat) : Int) * 4096) = 2147483648 by norm_num)
  refine ⟨h1, h2, ?_⟩
  rw [h1, h2]
  decide

/-- C2, as amended: in every reachable state `total` is the sum of the
`bytes` fields of all jobs dequeued so far, reduced modulo 2^64 as a
`uint64_t`; it equals the sum itself exactly when the sum lies in
`[0, 2^64)`. `write_async` never changes `total`, and the drain iteration
that removes the head job adds its bytes to `total` and subtracts them from
`pending` in the same step that hands the job to `write`. -/
theorem total_conservation (tr : List Event) :
    (Proc.run tr Proc.init).g.total = wrapUInt64 (queueBytes (Proc.run tr Proc.init).written) ∧
    ((Proc.run tr Proc.init).g.total = queueBytes (Proc.run tr Proc.init).written ↔
      0 ≤ queueBytes (Proc.run tr Proc.init).written ∧
        queueBytes (Proc.run tr Proc.init).written < 18446744073709551616) ∧
    (∀ fd src bytes mem g, (write_async fd src bytes mem g).2.total = g.total) ∧
    (∀ w g ptr rest, g.data_head = ptr :: rest →
      (drain_iter w g).write = some ptr ∧
      (drain_iter w g).g =
        { data_head := rest,
          pending := wrapInt32 (g.pending - ptr.bytes),
          total := wrapUInt64 (g.total + wrapUInt64 ptr.bytes) }) := by
  have h := (Proc.inv_run tr Proc.init Proc.inv_init).2.1
  refine ⟨h, ?_, ?_, ?_⟩
  · rw [h]
    exact wrapUInt64_eq_self_iff _
  · intro fd src bytes mem g
    cases mem <;> simp [write_async]
  · intro w g ptr rest hd
    constructor <;> (simp only [drain_iter, hd]; split <;> rfl)

/-- C2, witness: the drain iteration on a queue holding one 4-byte job. -/
theorem total_conservation_witness :
    (drain_iter 4 sampleGlobals).write = some sampleJob ∧
    (drain_iter 4 sampleGlobals).g =
      { data_head := [], pending := wrapInt32 (4 - 4), total := wrapUInt64 (0 + wrapUInt64 4) } :=
  (total_conservation []).2.2.2 4 sampleGlobals sampleJob [] rfl

/-- C2, counterexample: 4503599627370496 rounds of one 4096-byte
`write_async` followed by one drain iteration dequeue 18446744073709551616
bytes in all, while `total` is back at 0. -/
theorem total_conservation_fails :
    (Proc.run (rounds 4503599627370496
        [Event.write_async 3 (List.replicate 4096 0) 4096 true, Event.drain 4096])
      Proc.init).g.total = 0 ∧
    queueBytes (Proc.run (rounds 4503599627370496
        [Event.write_async 3 (List.replicate 4096 0) 4096 true, Event.drain 4096])
      Proc.init).written = 18446744073709551616 ∧
    (Proc.run (rounds 4503599627370496
        [Event.write_async 3 (List.replicate 4096 0) 4096 true, Event.drain 4096])
      Proc.init).g.total ≠
    queueBytes (Proc.run (rounds 4503599627370496
        [Event.write_async 3 (List.replicate 4096 0) 4096 true, Event.drain 4096])
      Proc.init).written := by
  have h := Proc.total_after_rounds 3 (List.replicate 4096 0) 4096 4503599627370496
  have h1 := h.1.trans (show wrapUInt64 ((4503599627370496 : Nat) * 4096) = 0 by
    norm_num [wrapUInt64])
  have h2 := h.2.trans
    (show (((4503599627370496 : Nat) : Int) * 4096) = 18446744073709551616 by norm_num)
  refine ⟨h1, h2, ?_⟩
  rw [h1, h2]
  decide

/-! ## Order and conservation of jobs -/

/-- C3: for every finite interleaving started on the empty queue, the jobs
dequeued by the drain loop are a prefix of the jobs in the order their
insertion completed, which are a prefix of the jobs submitted by the
`write_async` calls of the interleaving; the same holds for the jobs of any
single descriptor, so each producer's jobs are dequeued in its own order. -/
theorem fifo_order (tr : List Event) :
    (Proc.run tr Proc.init).written <+: (Proc.run tr Proc.init).enqueued ∧
    (Proc.run tr Proc.init).enqueued <+: submitted tr ∧
    (∀ fd : Int,
      (Proc.run tr Proc.init).written.filter (fun j => decide (j.fd = fd)) <+:
        (Proc.run tr Proc.init).enqueued.filter (fun j => decide (j.fd = fd))) ∧
    (∀ fd : Int,
      (Proc.run tr Proc.init).written.filter (fun j => decide (j.fd = fd)) <+:
        (submitted tr).filter (fun j => decide (j.fd = fd))) := by
  have hq := (Proc.inv_run tr Proc.init Proc.inv_init).2.2
  have hw : (Proc.run tr Proc.init).written <+: (Proc.run tr Proc.init).enqueued := by
    rw [hq]
    exact List.prefix_append _ _
  obtain ⟨l, hl, he, _⟩ := Proc.enqueued_run tr Proc.init
  have hs : (Proc.run tr Proc.init).enqueued <+: submitted tr := by
    rw [he]
    simpa [Proc.init] using hl
  exact ⟨hw, hs, fun fd => hw.filter _, fun fd => (hw.trans hs).filter _⟩

/-- C4: a successful `write_async(fd, data, bytes)` appends one job carrying
that descriptor, that length and the first `bytes` bytes of the block (the
whole block when it has `bytes` bytes); the drain iteration hands the head
job, unchanged, to `write` and removes it; and in every reachable state the
jobs ever enqueued are the jobs already dequeued followed by the queue, the
enqueued jobs being the submitted ones, in order. -/
theorem no_loss_no_duplication (tr : List Event) :
    (Proc.run tr Proc.init).enqueued =
      (Proc.run tr Proc.init).written ++ (Proc.run tr Proc.init).g.data_head ∧
    (Proc.run tr Proc.init).enqueued <+: submitted tr ∧
    ((Proc.run tr Proc.init).exit = none → (Proc.run tr Proc.init).enqueued = submitted tr) ∧
    (∀ fd src bytes g, (write_async fd src bytes true g).2.data_head =
      g.data_head ++ [{ fd := fd, bytes := bytes, data := src.take bytes.toNat }]) ∧
    (∀ (fd : Int) (src : List Nat), (write_async_ptr fd src src.length).data = src) ∧
    (∀ w g ptr rest, g.data_head = ptr :: rest →
      (drain_iter w g).write = some ptr ∧ (drain_iter w g).g.data_head = rest) := by
  have hq := (Proc.inv_run tr Proc.init Proc.inv_init).2.2
  obtain ⟨l, hl, he, hn⟩ := Proc.enqueued_run tr Proc.init
  have he2 : (Proc.run tr Proc.init).enqueued = l := by
    rw [he]
    simp [Proc.init]
  refine ⟨hq, ?_, ?_, ?_, ?_, ?_⟩
  · rw [he2]
    exact hl
  · intro hx
    rw [he2]
    exact hn hx
  · intro fd src bytes g
    simp [write_async, write_async_ptr]
  · intro fd src
    simp [write_async_ptr]
  · intro w g ptr rest hd
    constructor <;> (simp only [drain_iter, hd]; split <;> rfl)

/-- C4, witness: two blocks for two descriptors, one of them dequeued. -/
theorem no_loss_no_duplication_witness :
    (Proc.run [Event.write_async 3 [1, 2] 2 true, Event.write_async 4 [7, 8] 2 true,
      Event.drain 2] Proc.init).enqueued =
    submitted [Event.write_async 3 [1, 2] 2 true, Event.write_async 4 [7, 8] 2 true,
      Event.drain 2] ∧
    (drain_iter 4 sampleGlobals).write = some sampleJob ∧
    (drain_iter 4 sampleGlobals).g.data_head = [] :=
  ⟨(no_loss_no_duplication _).2.2.1 (by decide),
   (no_loss_no_duplication []).2.2.2.2.2 4 sampleGlobals sampleJob [] rfl⟩

/-! ## Short writes -/

/-- C6: when the drain loop dequeues the job `ptr` and `write` returns `w`,
the write is issued for that job, the loop goes on to the next iteration if
and only if `w` equals `ptr->bytes`, and otherwise the process exits with
`EX_SOFTWARE`: whatever steps follow, the list of writes stays the one that
ends with this single write of `ptr`. -/
theorem short_write_fatal (w : Int) (g : Globals) (ptr : data) (rest : List data)
    (h : g.data_head = ptr :: rest) :
    (drain_iter w g).write = some ptr ∧
    ((drain_iter w g).exit = none ↔ w = ptr.bytes) ∧
    (drain_iter w g).exit = (if w = ptr.bytes then none else some EX_SOFTWARE) ∧
    (∀ (p : Proc) (tr : List Event), p.exit = none → p.g = g → w ≠ ptr.bytes →
      (Proc.run (Event.drain w :: tr) p).written = p.written ++ [ptr] ∧
      (Proc.run (Event.drain w :: tr) p).exit = some EX_SOFTWARE) := by
  have hw : (drain_iter w g).write = some ptr := by
    simp only [drain_iter, h]
    split <;> rfl
  have hx : (drain_iter w g).exit = (if w = ptr.bytes then none else some EX_SOFTWARE) := by
    simp only [drain_iter, h]
    by_cases hc : w = ptr.bytes <;> simp [hc]
  refine ⟨hw, ?_, hx, ?_⟩
  · rw [hx]
    by_cases hc : w = ptr.bytes <;> simp [hc]
  · intro p tr hp hg hne
    have hs : p.step (Event.drain w) =
        { p with g := (drain_iter w g).g, written := p.written ++ [ptr],
                 exit := some EX_SOFTWARE } := by
      simp [Proc.step, hp, hg, hw, hx, hne]
    have hr : Proc.run (Event.drain w :: tr) p = p.step (Event.drain w) := by
      show Proc.run tr (p.step (Event.drain w)) = _
      exact Proc.run_of_exit tr _ EX_SOFTWARE (by rw [hs])
    rw [hr, hs]
    exact ⟨rfl, rfl⟩

/-- C6, witness: a 4-byte job whose `write` returns 2; a later `write_async`
and a later drain iteration change nothing. -/
theorem short_write_fatal_witness :
    (drain_iter 2 sampleGlobals).write = some sampleJob ∧
    ((drain_iter 2 sampleGlobals).exit = none ↔ (2 : Int) = sampleJob.bytes) ∧
    (drain_iter 2 sampleGlobals).exit =
      (if (2 : Int) = sampleJob.bytes then none else some EX_SOFTWARE) ∧
    (Proc.run [Event.drain 2, Event.write_async 3 [5] 1 true, Event.drain 1]
      { Proc.init with g := sampleGlobals }).written = [sampleJob] ∧
    (Proc.run [Event.drain 2, Event.write_async 3 [5] 1 true, Event.drain 1]
      { Proc.init with g := sampleGlobals }).exit = some EX_SOFTWARE :=
  have h := short_write_fatal 2 sampleGlobals sampleJob [] rfl
  ⟨h.1, h.2.1, h.2.2.1,
   h.2.2.2 { Proc.init with g := sampleGlobals } _ rfl rfl (by decide)⟩

/-! ## Short reads -/

/-- C5, as amended: with a buffer of `default_blocksize` bytes and a `read`
result `n` between -1 and the block size, one iteration of the capture loop
enqueues a job, of exactly the block size, carrying the buffer and addressed
to the device's `output_fd`, if and only if `n` equals the block size and
the `malloc` of `write_async` succeeds; in every other case the iteration
ends in the exit with status `EX_SOFTWARE` and leaves the queue, `pending`
and `total` as they were. -/
theorem short_read_fatal (default_blocksize : Int) (di : devinfo) (buffer : List Nat)
    (n : Int) (mem : Bool) (g : Globals)
    (hbuf : (buffer.length : Int) = default_blocksize) (hmax : default_blocksize ≤ INT_MAX)
    (hlo : -1 ≤ n) (hhi : n ≤ default_blocksize) :
    audio_thread_iter default_blocksize di buffer n mem g =
      if n = default_blocksize ∧ mem = true then
        (none,
          { data_head := g.data_head ++
              [{ fd := di.output_fd, bytes := default_blocksize, data := buffer }],
            pending := wrapInt32 (g.pending + default_blocksize),
            total := g.total })
      else
        (some EX_SOFTWARE, g) := by
  have h0 : 0 ≤ default_blocksize := by omega
  have hs : wrapUInt64 default_blocksize = default_blocksize := by
    unfold wrapUInt64 INT_MAX at *
    omega
  have hb : wrapInt32 default_blocksize = default_blocksize := by
    unfold wrapInt32 INT_MAX at *
    omega
  have hc : wrapUInt64 (wrapInt32 n) = default_blocksize ↔ n = default_blocksize := by
    unfold wrapUInt64 wrapInt32 INT_MAX at *
    omega
  have ht : buffer.take default_blocksize.toNat = buffer := by
    apply List.take_of_length_le
    omega
  unfold audio_thread_iter
  simp only [hs, hb, ne_eq, hc]
  by_cases hn : n = default_blocksize
  · cases mem with
    | false => simp [hn, write_async]
    | true => simp [hn, write_async, write_async_ptr, hs, hb, ht]
  · simp [hn]

/-- C5, witness: a full read of a 4-byte block whose job is allocated. -/
theorem short_read_fatal_witness :
    audio_thread_iter 4 { inputfn := [], outputfn := [], input_fd := 5, output_fd := 6 }
      [1, 2, 3, 4] 4 true { data_head := [], pending := 0, total := 0 } =
      if (4 : Int) = 4 ∧ true = true then
        (none,
          { data_head := [] ++ [{ fd := 6, bytes := 4, data := [1, 2, 3, 4] }],
            pending := wrapInt32 (0 + 4),
            total := 0 })
      else
        (some EX_SOFTWARE, { data_head := [], pending := 0, total := 0 }) :=
  short_read_fatal 4 { inputfn := [], outputfn := [], input_fd := 5, output_fd := 6 }
    [1, 2, 3, 4] 4 true { data_head := [], pending := 0, total := 0 }
    (by decide) (by decide) (by decide) (by decide)

/-- C5, counterexample: the `read` returns the full block size 4096, the
`malloc` of `write_async` fails, and the iteration exits with `EX_SOFTWARE`
without enqueuing a job: "a job was enqueued" is not equivalent to "`n`
equals the block size". -/
theorem short_read_fatal_fails :
    audio_thread_iter 4096 { inputfn := [], outputfn := [], input_fd := 5, output_fd := 6 }
      (List.replicate 4096 0) 4096 false { data_head := [], pending := 0, total := 0 } =
      (some EX_SOFTWARE, { data_head := [], pending := 0, total := 0 }) ∧
    ¬ ((audio_thread_iter 4096
          { inputfn := [], outputfn := [], input_fd := 5, output_fd := 6 }
          (List.replicate 4096 0) 4096 false
          { data_head := [], pending := 0, total := 0 }).2.data_head ≠ [] ↔
        (4096 : Int) = 4096) := by
  decide

/-! ## The status line -/

/-- C7, as amended: for a sampled `total` and an elapsed time in whole
seconds, the divisor used by `status_thread` is `max elapsed 1`, which is
positive, and the average it prints is `total / max elapsed 1` cast to a C
`int`; the printed value equals that quotient exactly when the quotient is
at most `INT_MAX`. A total of 120000 after 10 seconds prints 12000, and
after 0 seconds the divisor is 1. -/
theorem throughput (g : Globals) (elapsed : Int) (ht : 0 ≤ g.total) (he : 0 ≤ elapsed) :
    status_runtime elapsed = max elapsed 1 ∧ 0 < status_runtime elapsed ∧
    (status_thread_iter g elapsed).avg = wrapInt32 (g.total / max elapsed 1) ∧
    ((status_thread_iter g elapsed).avg = g.total / max elapsed 1 ↔
      g.total / max elapsed 1 ≤ INT_MAX) ∧
    (status_thread_iter { g with total := 120000 } 10).avg = 12000 ∧
    (status_thread_iter { g with total := 120000 } 0).avg = 120000 := by
  have hr : status_runtime elapsed = max elapsed 1 := by
    unfold status_runtime
    split <;> omega
  have hq : 0 ≤ g.total / max elapsed 1 := Int.ediv_nonneg ht (by omega)
  have ha : (status_thread_iter g elapsed).avg = wrapInt32 (g.total / max elapsed 1) := by
    simp [status_thread_iter, status_printf_args, hr]
  refine ⟨hr, by rw [hr]; omega, ha, ?_, ?_, ?_⟩
  · rw [ha, wrapInt32_eq_self_iff]
    unfold INT_MIN
    constructor
    · intro h
      exact h.2
    · intro h
      exact ⟨by omega, h⟩
  · simp [status_thread_iter, status_printf_args, status_runtime, wrapInt32]
  · simp [status_thread_iter, status_printf_args, status_runtime, wrapInt32]

/-- C7, witness: 120000 bytes after 10 seconds. -/
theorem throughput_witness :
    (status_thread_iter { data_head := [], pending := 0, total := 120000 } 10).avg =
      wrapInt32 (120000 / max 10 1) :=
  (throughput { data_head := [], pending := 0, total := 120000 } 10
    (by decide) (by decide)).2.2.1

/-- C7, counterexample: a total of 21474836480 bytes after 10 seconds is an
average of 2147483648, and the value printed is -2147483648. -/
theorem throughput_fails :
    (status_thread_iter { data_head := [], pending := 0, total := 21474836480 } 10).avg =
      -2147483648 ∧
    (21474836480 : Int) / max 10 1 = 2147483648 ∧
    (status_thread_iter { data_head := [], pending := 0, total := 21474836480 } 10).avg ≠
      (21474836480 : Int) / max 10 1 := by
  decide

theorem main_getopt_loop_append (M : Nat) (atoi : List Char → Int) (a b : List Opt)
    (st : MainState) :
    main_getopt_loop M atoi (a ++ b) st =
      match main_getopt_loop M atoi a st with
      | Except.error code => Except.error code
      | Except.ok st1 => main_getopt_loop M atoi b st1 := by
  induction a generalizing st with
  | nil => rfl
  | cons c cs ih =>
    simp only [List.cons_append, main_getopt_loop]
    cases main_option M atoi st c with
    | error code => rfl
    | ok st1 => exact ih st1

theorem registered_le_length (cs : List Opt) : registered cs ≤ cs.length := by
  induction cs with
  | nil => exact Nat.le_refl 0
  | cons c cs ih => cases c <;> simp [registered] <;> omega

/-- The state after the options `pre`: the current name stem, the number of
devices and the counter `n`. -/
theorem main_getopt_loop_state (M : Nat) (atoi : List Char → Int) (pre : List Opt)
    (st st1 : MainState) (h : main_getopt_loop M atoi pre st = Except.ok st1)
    (h0 : 0 ≤ st.n) (hb : st.n + pre.length ≤ INT_MAX) :
    st1.default_prefix = lastO ( st.default_prefix) pre ∧
    st1.devinfo_head.length = st.devinfo_head.length + registered pre ∧
    st1.n = st.n + registered pre := by
  induction pre generalizing st with
  | nil =>
    simp only [main_getopt_loop, Except.ok.injEq] at h
    subst h
    simp [registered, lastO]
  | cons c cs ih =>
    simp only [List.length_cons, Nat.cast_add, Nat.cast_one] at hb
    simp only [main_getopt_loop] at h
    cases c with
    | b optarg =>
      simp only [main_option] at h
      obtain ⟨h1, h2, h3⟩ := ih _ h h0 (by simp only; omega)
      exact ⟨h1, h2, h3⟩
    | o optarg =>
      simp only [main_option] at h
      obtain ⟨h1, h2, h3⟩ := ih _ h h0 (by simp only; omega)
      exact ⟨h1, h2, h3⟩
    | i optarg mem =>
      cases mem with
      | false => simp [main_option] at h
      | true =>
        simp only [main_option, Bool.true_eq_false, if_false] at h
        have hw : wrapInt32 (st.n + 1) = st.n + 1 := by
          unfold wrapInt32
          unfold INT_MAX at hb
          omega
        obtain ⟨h1, h2, h3⟩ := ih _ h (by simp only [hw]; omega) (by simp only [hw]; omega)
        refine ⟨h1, ?_, ?_⟩
        · rw [h2]
          simp only [List.length_append, List.length_singleton, registered]
          omega
        · rw [h3]
          simp only [hw, registered, Nat.cast_add, Nat.cast_one]
          omega
    | other => simp [main_option] at h

/-- The devices registered so far stay at the front of the list. -/
theorem main_getopt_loop_devices (M : Nat) (atoi : List Char → Int) (cs : List Opt)
    (st st1 : MainState) (h : main_getopt_loop M atoi cs st = Except.ok st1) :
    ∃ l, st1.devinfo_head = st.devinfo_head ++ l := by
  induction cs generalizing st with
  | nil =>
    simp only [main_getopt_loop, Except.ok.injEq] at h
    subst h
    exact ⟨[], by simp⟩
  | cons c cs ih =>
    simp only [main_getopt_loop] at h
    cases hc : main_option M atoi st c with
    | error code => simp [hc] at h
    | ok st2 =>
      rw [hc] at h
      obtain ⟨l, hl⟩ := ih st2 h
      have h2 : ∃ l2, st2.devinfo_head = st.devinfo_head ++ l2 := by
        cases c with
        | b optarg =>
          simp only [main_option, Except.ok.injEq] at hc
          subst hc
          exact ⟨[], by simp⟩
        | o optarg =>
          simp only [main_option, Except.ok.injEq] at hc
          subst hc
          exact ⟨[], by simp⟩
        | i optarg mem =>
          cases mem with
          | false => simp [main_option] at hc
          | true =>
            simp only [main_option, Bool.true_eq_false, if_false, Except.ok.injEq] at hc
            subst hc
            exact ⟨_, rfl⟩
        | other => simp [main_option] at hc
      obtain ⟨l2, hl2⟩ := h2
      exact ⟨l2 ++ l, by rw [hl, hl2, List.append_assoc]⟩

theorem printf_d_natCast (k : Nat) : printf_d (k : Int) = Nat.toDigits 10 k := by
  simp [printf_d]

theorem main_getopt_loop_append_ok (M : Nat) (atoi : List Char → Int) (a b : List Opt)
    (st st2 : MainState) (h : main_getopt_loop M atoi (a ++ b) st = Except.ok st2) :
    ∃ st1, main_getopt_loop M atoi a st = Except.ok st1 ∧
      main_getopt_loop M atoi b st1 = Except.ok st2 := by
  rw [main_getopt_loop_append] at h
  cases h1 : main_getopt_loop M atoi a st with
  | error code =>
    rw [h1] at h
    cases h
  | ok st1 =>
    rw [h1] at h
    exact ⟨st1, rfl, h⟩

theorem main_getopt_loop_cons_ok (M : Nat) (atoi : List Char → Int) (c : Opt) (cs : List Opt)
    (st st2 : MainState) (h : main_getopt_loop M atoi (c :: cs) st = Except.ok st2) :
    ∃ st1, main_option M atoi st c = Except.ok st1 ∧
      main_getopt_loop M atoi cs st1 = Except.ok st2 := by
  rw [main_getopt_loop] at h
  cases h1 : main_option M atoi st c with
  | error code =>
    rw [h1] at h
    cases h
  | ok st1 =>
    rw [h1] at h
    exact ⟨st1, rfl, h⟩

theorem main_option_i_ok (M : Nat) (atoi : List Char → Int) (optarg : List Char) (mem : Bool)
    (st st1 : MainState) (h : main_option M atoi st (Opt.i optarg mem) = Except.ok st1) :
    ∃ di : devinfo, st1.devinfo_head = st.devinfo_head ++ [di] ∧
      di.outputfn = snprintf M
        ( st.default_prefix ++ "-".toList ++ printf_d st.n ++ ".wav".toList) := by
  cases mem with
  | false =>
    rw [main_option] at h
    cases h
  | true =>
    rw [main_option] at h
    cases h
    exact ⟨_, rfl, rfl⟩

theorem outputNames_some (M : Nat) (atoi : List Char → Int) (opts : List Opt)
    (names : List (List Char)) (h : outputNames M atoi opts = some names) :
    ∃ st, main_getopt_loop M atoi opts MainState.init = Except.ok st ∧
      names = st.devinfo_head.map (fun di => di.outputfn) := by
  unfold outputNames main_options at h
  cases h1 : main_getopt_loop M atoi opts MainState.init with
  | error code =>
    rw [h1] at h
    cases h
  | ok st =>
    rw [h1] at h
    refine ⟨st, rfl, ?_⟩
    by_cases hz : st.n = 0
    · simp [hz] at h
    · simp only [hz, if_false, Option.some.injEq] at h
      exact h.symm

/-- C8, as amended: on every command line accepted by the option loop, the
`-i` option that follows the options `pre` registers the device number
`registered pre` (counted from 0), and its output file name is
`<stem>-<k>.wav` cut to `MAXPATHLEN - 1` characters, where `<stem>` is the
argument of the last `-o` that precedes this `-i` (`recording` when none
precedes it). With `-o rec` first, inputs `a.raw`, `b.raw`, `c.raw` get
`rec-0.wav`, `rec-1.wav`, `rec-2.wav`. -/
theorem output_naming (MAXPATHLEN : Nat) (atoi : List Char → Int) (pre post : List Opt)
    (optarg : List Char) (mem : Bool) (names : List (List Char))
    (hargc : (pre ++ Opt.i optarg mem :: post).length ≤ 2147483647)
    (hok : outputNames MAXPATHLEN atoi (pre ++ Opt.i optarg mem :: post) = some names) :
    names[registered pre]? =
      some (snprintf MAXPATHLEN
        (lastO "recording".toList pre ++ "-".toList ++ Nat.toDigits 10 (registered pre)
          ++ ".wav".toList)) ∧
    outputNames 1024 atoi
        [Opt.o "rec".toList, Opt.i "a.raw".toList true, Opt.i "b.raw".toList true,
          Opt.i "c.raw".toList true] =
      some ["rec-0.wav".toList, "rec-1.wav".toList, "rec-2.wav".toList] := by
  constructor
  · simp only [List.length_append, List.length_cons] at hargc
    obtain ⟨st3, h3, hnames⟩ := outputNames_some _ _ _ _ hok
    obtain ⟨st1, h1, h13⟩ := main_getopt_loop_append_ok _ _ _ _ _ _ h3
    obtain ⟨st2, h12, h23⟩ := main_getopt_loop_cons_ok _ _ _ _ _ _ h13
    obtain ⟨di, hdi, hout⟩ := main_option_i_ok _ _ _ _ _ _ h12
    obtain ⟨l, hd⟩ := main_getopt_loop_devices _ _ _ _ _ h23
    obtain ⟨hp, hl, hn⟩ := main_getopt_loop_state MAXPATHLEN atoi pre MainState.init st1 h1
      (by decide) (by simp only [MainState.init, INT_MAX]; omega)
    have hp2 : st1.default_prefix = lastO "recording".toList pre := hp
    have hl2 : st1.devinfo_head.length = registered pre := by
      rw [hl]
      simp [MainState.init]
    have hn2 : st1.n = (registered pre : Int) := by
      rw [hn]
      simp [MainState.init]
    rw [hnames, hd, hdi, List.map_append, List.map_append, List.append_assoc,
      List.getElem?_append_right (by simp [hl2])]
    simp only [List.length_map, hl2, Nat.sub_self, List.map_cons, List.map_nil,
      List.singleton_append, List.getElem?_cons_zero, hout, hp2, hn2, printf_d_natCast]
  · simp only [outputNames, main_options, main_getopt_loop, main_option, MainState.init]
    decide

/-- C8, witness: `-o rec -i a.raw -i b.raw`, at the second `-i`. -/
theorem output_naming_witness :
    ["rec-0.wav".toList, "rec-1.wav".toList][registered [Opt.o "rec".toList,
        Opt.i "a.raw".toList true]]? =
      some (snprintf 1024
        (lastO "recording".toList [Opt.o "rec".toList, Opt.i "a.raw".toList true] ++ "-".toList
          ++ Nat.toDigits 10 (registered [Opt.o "rec".toList, Opt.i "a.raw".toList true])
          ++ ".wav".toList)) :=
  (output_naming 1024 (fun _ => 0) [Opt.o "rec".toList, Opt.i "a.raw".toList true] []
    "b.raw".toList true ["rec-0.wav".toList, "rec-1.wav".toList] (by decide) (by decide)).1

/-- C8, counterexample: on the accepted command line `-i a.raw -o rec` the
value given with `-o` is `rec`, and the output file of input 0 is
`recording-0.wav`. -/
theorem output_naming_fails :
    outputNames 1024 (fun _ => 0) [Opt.i "a.raw".toList true, Opt.o "rec".toList] =
      some ["recording-0.wav".toList] ∧
    outputNames 1024 (fun _ => 0) [Opt.i "a.raw".toList true, Opt.o "rec".toList] ≠
      some ["rec-0.wav".toList] := by
  decide

/-! ## Lock discipline -/

theorem lockCheck_append (held : Bool) (a b : List Act) :
    lockCheck held (a ++ b) = (lockCheck held a).bind (fun h => lockCheck h b) := by
  induction a generalizing held with
  | nil => rfl
  | cons x xs ih =>
    cases x <;> cases held <;> simp [lockCheck, ih]

/-- A sequence that keeps the discipline keeps it at every moment. -/
theorem lockCheck_take (held : Bool) (acts : List Act) (k : Nat)
    (h : (lockCheck held acts).isSome = true) :
    (lockCheck held (acts.take k)).isSome = true := by
  rw [← List.take_append_drop k acts, lockCheck_append] at h
  cases hc : lockCheck held (acts.take k) with
  | none => simp [hc] at h
  | some v => rfl

theorem write_async_acts_check (mem : Bool) :
    lockCheck false (write_async_acts mem) = some false := by
  cases mem <;> rfl

theorem audio_thread_acts_check (its : List (Bool × Bool)) :
    lockCheck false (audio_thread_acts its) = some false := by
  induction its with
  | nil => rfl
  | cons it rest ih =>
    obtain ⟨full, mem⟩ := it
    cases full with
    | false => rfl
    | true =>
      cases mem with
      | false => rfl
      | true => simpa [audio_thread_acts, write_async_acts, lockCheck] using ih

theorem status_loop_acts_check (n : Nat) :
    lockCheck false (status_loop_acts n) = some false := by
  induction n with
  | zero => rfl
  | succ n ih => simpa [status_loop_acts, lockCheck] using ih

theorem drain_loop_acts_check (its : List (Option Bool)) :
    (lockCheck true (drain_loop_acts its)).isSome = true := by
  induction its with
  | nil => rfl
  | cons it rest ih =>
    cases it with
    | none => simpa [drain_loop_acts, lockCheck] using ih
    | some ok =>
      cases ok with
      | false => rfl
      | true => simpa [drain_loop_acts, lockCheck] using ih

/-- The discipline is not vacuous: touching `pending` without the lock, or
calling `write` inside the locked section, is rejected. -/
theorem disciplined_rejects :
    disciplined [Act.access SharedVar.pending] = false ∧
    disciplined [Act.atomic_lock, Act.access SharedVar.data_head,
      Act.blocking Blocking.write, Act.atomic_unlock] = false := by
  constructor <;> rfl

/-- C9: at every moment of every run of `write_async`, of `audio_thread`, of
`status_thread` and of the drain loop of `main`, the thread's own actions
keep the lock discipline: each access to the queue, to `pending` or to
`total` is made while the thread holds `atomic_mtx` (between its
`atomic_lock`, or the return of `atomic_wait`, and its next
`atomic_unlock`), and each blocking call (`read`, `write`, `printf`,
`fflush`, `usleep`) is made while it does not hold it. -/
theorem lock_discipline (k : Nat) :
    (∀ mem : Bool, disciplined ((write_async_acts mem).take k) = true) ∧
    (∀ its : List (Bool × Bool), disciplined ((audio_thread_acts its).take k) = true) ∧
    (∀ n : Nat, disciplined ((status_thread_acts n).take k) = true) ∧
    (∀ its : List (Option Bool), disciplined ((main_acts its).take k) = true) := by
  refine ⟨?_, ?_, ?_, ?_⟩
  · intro mem
    apply lockCheck_take
    rw [write_async_acts_check]
    rfl
  · intro its
    apply lockCheck_take
    rw [audio_thread_acts_check]
    rfl
  · intro n
    apply lockCheck_take
    show (lockCheck false (status_loop_acts n)).isSome = true
    rw [status_loop_acts_check]
    rfl
  · intro its
    apply lockCheck_take
    exact drain_loop_acts_check its

end Audiocat
